import Mathlib

/-
Verification of the timing and judgment core of a browser rhythm game
(single source file, main.js). JavaScript numbers are modelled as exact
rationals, the runtime note array as a Lean list kept in source order,
and the ambient mutable session state as explicit records threaded
through the functions. Definitions keep the source names.
-/

-- --------------------- Data model ---------------------

inductive NoteState
| pending
| hit
| miss
deriving DecidableEq

inductive Judgment
| P
| G
| O
| M
deriving DecidableEq

/-- Runtime note record, mirroring makeRuntimeNote in the source:
fields tMs, x, y, r plus lifecycle fields state, judgedAtMs, deltaMs,
judgment (null modelled as none). -/
structure RuntimeNote where
  tMs : ℚ
  x : ℚ
  y : ℚ
  r : ℚ
  state : NoteState
  judgedAtMs : Option ℚ
  deltaMs : Option ℚ
  judgment : Option Judgment
deriving DecidableEq

/-- The score and counter fields of the ambient STATE object. -/
structure Stats where
  score : ℚ
  combo : ℕ
  maxCombo : ℕ
  p : ℕ
  g : ℕ
  o : ℕ
  m : ℕ
  totalJudged : ℕ
  totalHit : ℕ
deriving DecidableEq

/-- Stats as resetGameState leaves them: everything zero. -/
def initStats : Stats :=
  { score := 0, combo := 0, maxCombo := 0, p := 0, g := 0, o := 0, m := 0,
    totalJudged := 0, totalHit := 0 }

-- --------------------- CONFIG constants ---------------------

def PREEMPT_MS : ℚ := 900

def HIT_WINDOW_MS : ℚ := 160

def AFTER_MS : ℚ := 260

def BASE_RADIUS_PX : ℚ := 34

def PERFECT_MS : ℚ := 45

def GOOD_MS : ℚ := 90

def OK_MS : ℚ := 140

def SCORE_PERFECT : ℚ := 300

def SCORE_GOOD : ℚ := 150

def SCORE_OK : ℚ := 60

def SCORE_MISS : ℚ := 0

def COMBO_BONUS : ℚ := 6 / 100

/-- The literal 200 added in the end condition of tick. -/
def endGraceMs : ℚ := 200

-- --------------------- Utilities ---------------------

def clamp (v a b : ℚ) : ℚ := max a (min b v)

def lerp (a b t : ℚ) : ℚ := a + (b - a) * t

/-- Squared distance between two points, as in the source dist2. -/
def dist2 (x1 y1 x2 y2 : ℚ) : ℚ :=
  (x1 - x2) * (x1 - x2) + (y1 - y2) * (y1 - y2)

-- --------------------- Judgment ---------------------

/-- Tier classification of a timing offset; the final else branch of the
source also returns the Ok tier (a delta inside the hit window but beyond
the Ok threshold is still a hit of the lowest tier). -/
def judge (deltaMs : ℚ) : Judgment :=
  if |deltaMs| ≤ PERFECT_MS then Judgment.P
  else if |deltaMs| ≤ GOOD_MS then Judgment.G
  else if |deltaMs| ≤ OK_MS then Judgment.O
  else Judgment.O

/-- C5: for every timing offset d, judge returns Perfect when the absolute
offset is at most 45 ms, Good when it lies in (45, 90], and Ok for every
larger absolute offset (including offsets beyond the 140 ms Ok threshold);
judge never returns Miss. -/
theorem judge_tier_thresholds_C5 (d : ℚ) :
    (|d| ≤ 45 → judge d = Judgment.P) ∧
    (45 < |d| → |d| ≤ 90 → judge d = Judgment.G) ∧
    (90 < |d| → judge d = Judgment.O) ∧
    judge d ≠ Judgment.M := by
  unfold judge PERFECT_MS GOOD_MS OK_MS
  split_ifs with h1 h2 h3
  · exact ⟨fun _ => rfl, fun h _ => absurd h (not_lt.mpr h1),
      fun h => absurd h (not_lt.mpr (h1.trans (by norm_num))), by decide⟩
  · exact ⟨fun h => absurd h h1, fun _ _ => rfl,
      fun h => absurd h (not_lt.mpr h2), by decide⟩
  · exact ⟨fun h => absurd h h1, fun _ h => absurd h h2, fun _ => rfl, by decide⟩
  · exact ⟨fun h => absurd h h1, fun _ h => absurd h h2, fun _ => rfl, by decide⟩

/-- C5 witness: concrete offsets in each band. -/
theorem judge_tier_thresholds_C5_witness :
    judge 30 = Judgment.P ∧ judge (-60) = Judgment.G ∧ judge 120 = Judgment.O ∧
    judge 200 ≠ Judgment.M :=
  ⟨(judge_tier_thresholds_C5 30).1 (by norm_num),
    (judge_tier_thresholds_C5 (-60)).2.1 (by norm_num) (by norm_num),
    (judge_tier_thresholds_C5 120).2.2.1 (by norm_num),
    (judge_tier_thresholds_C5 200).2.2.2⟩

-- --------------------- Scoring on a hit ---------------------

/-- Base score per tier, as the CONFIG constants assign them. -/
def baseScore : Judgment → ℚ
  | Judgment.P => SCORE_PERFECT
  | Judgment.G => SCORE_GOOD
  | Judgment.O => SCORE_OK
  | Judgment.M => SCORE_MISS

/-- The per-tier counter of the stats record addressed by a tier. -/
def tierCount : Judgment → Stats → ℕ
  | Judgment.P, s => s.p
  | Judgment.G, s => s.g
  | Judgment.O, s => s.o
  | Judgment.M, s => s.m

/-- Hit bookkeeping from applyJudgment in the source: marks the note hit,
records the judgment data on it, bumps combo, maxCombo and the counters,
and adds the multiplied base score. Returns the updated note and stats.
The final else branch of the source counts the Ok tier, exactly as the
chain of ifs in applyJudgment does. -/
def applyJudgment (note : RuntimeNote) (judgedAtMs deltaMs : ℚ) (judgment : Judgment)
    (s : Stats) : RuntimeNote × Stats :=
  let note2 := { note with
    state := NoteState.hit, judgedAtMs := some judgedAtMs,
    deltaMs := some deltaMs, judgment := some judgment }
  let combo2 := s.combo + 1
  let maxCombo2 := max s.maxCombo combo2
  let base : ℚ :=
    if judgment = Judgment.P then SCORE_PERFECT
    else if judgment = Judgment.G then SCORE_GOOD
    else SCORE_OK
  let p2 := if judgment = Judgment.P then s.p + 1 else s.p
  let g2 := if judgment = Judgment.G then s.g + 1 else s.g
  let o2 := if judgment = Judgment.P ∨ judgment = Judgment.G then s.o else s.o + 1
  let mult : ℚ := 1 + ((combo2 : ℚ) - 1) * COMBO_BONUS
  (note2,
    { score := s.score + base * mult, combo := combo2, maxCombo := maxCombo2,
      p := p2, g := g2, o := o2, m := s.m,
      totalJudged := s.totalJudged + 1, totalHit := s.totalHit + 1 })

/-- C4: a resolved hit of tier T increments combo by one first, then sets
maxCombo to the max of the old maxCombo and the new combo, adds exactly
baseScore T times the multiplier 1 + (combo - 1) * 0.06 computed from the
new combo, and increments the tier count, totalJudged and totalHit by one. -/
theorem applyJudgment_scoring_C4 (note : RuntimeNote) (t d : ℚ) (j : Judgment)
    (s : Stats) (hj : j ≠ Judgment.M) :
    (applyJudgment note t d j s).2.combo = s.combo + 1 ∧
    (applyJudgment note t d j s).2.maxCombo =
      max s.maxCombo ((applyJudgment note t d j s).2.combo) ∧
    (applyJudgment note t d j s).2.score =
      s.score + baseScore j *
        (1 + (((applyJudgment note t d j s).2.combo : ℚ) - 1) * COMBO_BONUS) ∧
    tierCount j ((applyJudgment note t d j s).2) = tierCount j s + 1 ∧
    (applyJudgment note t d j s).2.totalJudged = s.totalJudged + 1 ∧
    (applyJudgment note t d j s).2.totalHit = s.totalHit + 1 := by
  cases j with
  | P => simp [applyJudgment, baseScore, tierCount]
  | G => simp [applyJudgment, baseScore, tierCount]
  | O => simp [applyJudgment, baseScore, tierCount]
  | M => exact absurd rfl hj

/-- A sample runtime note, scheduled at 1000 ms at pixel point (100, 100)
with the base radius. -/
def demoNote : RuntimeNote :=
  { tMs := 1000, x := 100, y := 100, r := 34, state := NoteState.pending,
    judgedAtMs := none, deltaMs := none, judgment := none }

/-- C4 witness: the first hit of a run, judged Perfect from all-zero
stats, yields combo 1 and score 300 (the spec scenario). -/
theorem applyJudgment_scoring_C4_witness :
    (applyJudgment demoNote 1010 10 Judgment.P initStats).2.combo = 1 ∧
    (applyJudgment demoNote 1010 10 Judgment.P initStats).2.score = 300 := by
  have h := applyJudgment_scoring_C4 demoNote 1010 10 Judgment.P initStats (by decide)
  constructor
  · rw [h.1]; rfl
  · rw [h.2.2.1, h.1]
    norm_num [baseScore, SCORE_PERFECT, COMBO_BONUS, initStats]

-- --------------------- Accuracy ---------------------

/-- Weighted accuracy from the source computeAccuracy: weights 1.0, 0.75
and 0.45 for the hit tiers, nothing for misses, with the max(1, totalJudged)
denominator guard. -/
def computeAccuracy (s : Stats) : ℚ :=
  ((s.p : ℚ) * 1 + (s.g : ℚ) * (75 / 100) + (s.o : ℚ) * (45 / 100)) /
    max 1 (s.totalJudged : ℚ)

/-- C9: accuracy equals the weighted sum (with weight 0 on misses) over
max(1, totalJudged); whenever the tier counts sum to totalJudged it lies
in [0, 1], and it is exactly 0 when nothing has been judged, with no
division by zero. -/
theorem computeAccuracy_bounds_C9 (s : Stats)
    (h : s.p + s.g + s.o + s.m = s.totalJudged) :
    computeAccuracy s =
      ((s.p : ℚ) * 1 + (s.g : ℚ) * (75 / 100) + (s.o : ℚ) * (45 / 100) +
        (s.m : ℚ) * 0) / max 1 (s.totalJudged : ℚ) ∧
    0 ≤ computeAccuracy s ∧ computeAccuracy s ≤ 1 ∧
    (s.totalJudged = 0 → computeAccuracy s = 0) := by
  have hden : (0 : ℚ) < max 1 (s.totalJudged : ℚ) :=
    lt_of_lt_of_le one_pos (le_max_left _ _)
  have hnum0 : (0 : ℚ) ≤ (s.p : ℚ) * 1 + (s.g : ℚ) * (75 / 100) + (s.o : ℚ) * (45 / 100) := by
    positivity
  refine ⟨by simp [computeAccuracy], div_nonneg hnum0 hden.le, ?_, ?_⟩
  · rw [computeAccuracy, div_le_one hden]
    have hg : (0 : ℚ) ≤ (s.g : ℚ) := Nat.cast_nonneg _
    have ho : (0 : ℚ) ≤ (s.o : ℚ) := Nat.cast_nonneg _
    have hm : (0 : ℚ) ≤ (s.m : ℚ) := Nat.cast_nonneg _
    have hsum : (s.p : ℚ) + (s.g : ℚ) + (s.o : ℚ) + (s.m : ℚ) = (s.totalJudged : ℚ) := by
      exact_mod_cast h
    have hle : (s.p : ℚ) * 1 + (s.g : ℚ) * (75 / 100) + (s.o : ℚ) * (45 / 100) ≤
        (s.totalJudged : ℚ) := by
      rw [← hsum]; linarith
    exact hle.trans (le_max_right _ _)
  · intro h0
    have hz : s.p = 0 ∧ s.g = 0 ∧ s.o = 0 := by omega
    rw [computeAccuracy, hz.1, hz.2.1, hz.2.2, h0]
    norm_num

/-- Stats of a partially played run, used as a witness input. -/
def demoStats : Stats :=
  { score := 555, combo := 0, maxCombo := 3, p := 1, g := 1, o := 1, m := 1,
    totalJudged := 4, totalHit := 3 }

/-- C9 witness: the bounds at a concrete mid-run stats record, and the
zero value at the initial all-zero stats record. -/
theorem computeAccuracy_bounds_C9_witness :
    (0 ≤ computeAccuracy demoStats ∧ computeAccuracy demoStats ≤ 1) ∧
    computeAccuracy initStats = 0 :=
  ⟨⟨(computeAccuracy_bounds_C9 demoStats (by decide)).2.1,
    (computeAccuracy_bounds_C9 demoStats (by decide)).2.2.1⟩,
    (computeAccuracy_bounds_C9 initStats (by decide)).2.2.2 rfl⟩

-- --------------------- Auto-miss sweep ---------------------

/-- The miss record processAutoMisses writes onto one overdue pending
note. -/
def sweptNote (currentMs : ℚ) (n : RuntimeNote) : RuntimeNote :=
  { n with
    state := NoteState.miss, judgedAtMs := some currentMs,
    deltaMs := some (currentMs - n.tMs), judgment := some Judgment.M }

/-- Sweep condition of the source: still pending and past the end of the
hit window. -/
def sweepTarget (currentMs : ℚ) (n : RuntimeNote) : Prop :=
  n.state = NoteState.pending ∧ currentMs > n.tMs + HIT_WINDOW_MS

instance (currentMs : ℚ) (n : RuntimeNote) : Decidable (sweepTarget currentMs n) := by
  unfold sweepTarget
  infer_instance

/-- The per-frame auto-miss sweep (processAutoMisses in the source): one
pass over the note array, turning each overdue pending note into a miss
and applying the miss scoring path to the stats. -/
def processAutoMisses (currentMs : ℚ) : List RuntimeNote → Stats → List RuntimeNote × Stats
  | [], s => ([], s)
  | n :: rest, s =>
    if sweepTarget currentMs n then
      let s2 : Stats := { s with totalJudged := s.totalJudged + 1, m := s.m + 1, combo := 0 }
      let r := processAutoMisses currentMs rest s2
      (sweptNote currentMs n :: r.1, r.2)
    else
      let r := processAutoMisses currentMs rest s
      (n :: r.1, r.2)

/-- C3: the sweep at elapsed time t rewrites exactly the pending notes
with t > tMs + 160 into misses carrying judgedAt = t, timingOffset =
t - tMs and judgment Miss, leaving every other note (already hit, already
missed, or still inside the window) untouched; the stats gain the number
k of swept notes on both the miss count and totalJudged, combo is exactly
0 whenever at least one note was swept and untouched otherwise, and
score, maxCombo, totalHit and the hit tier counts are unchanged. -/
theorem processAutoMisses_spec_C3 (t : ℚ) (notes : List RuntimeNote) (s : Stats) :
    processAutoMisses t notes s =
      (notes.map (fun n => if sweepTarget t n then sweptNote t n else n),
        { s with
          m := s.m + notes.countP (fun n => decide (sweepTarget t n)),
          totalJudged :=
            s.totalJudged + notes.countP (fun n => decide (sweepTarget t n)),
          combo :=
            if notes.countP (fun n => decide (sweepTarget t n)) = 0 then s.combo
            else 0 }) := by
  induction notes generalizing s with
  | nil => simp [processAutoMisses]
  | cons n rest ih =>
    by_cases h : sweepTarget t n
    · simp only [processAutoMisses, if_pos h, ih, List.map_cons, List.countP_cons,
        decide_eq_true h, if_true, Prod.mk.injEq, List.cons.injEq]
      have hk1 : List.countP (fun x => decide (sweepTarget t x)) rest + 1 ≠ 0 :=
        Nat.succ_ne_zero _
      simp only [Stats.mk.injEq, ite_self, if_neg hk1, true_and, and_true]
      omega
    · simp only [processAutoMisses, if_neg h, ih, List.map_cons, List.countP_cons,
        decide_eq_false h, Prod.mk.injEq, List.cons.injEq]
      simp [h]

-- --------------------- Hit resolution ---------------------

/-- Eligibility filter of attemptHit: pending, timing error inside the
hit window, and the query point inside the circle of the note. -/
def isCandidate (cx cy t : ℚ) (n : RuntimeNote) : Prop :=
  n.state = NoteState.pending ∧ |t - n.tMs| ≤ HIT_WINDOW_MS ∧
    dist2 cx cy n.x n.y ≤ n.r * n.r

instance (cx cy t : ℚ) (n : RuntimeNote) : Decidable (isCandidate cx cy t n) := by
  unfold isCandidate
  infer_instance

/-- The comparator key of the overlap selection: absolute timing error
first, squared distance to the cursor second. -/
def hitKey (cx cy t : ℚ) (n : RuntimeNote) : ℚ × ℚ :=
  (|t - n.tMs|, dist2 cx cy n.x n.y)

/-- Strict lexicographic order on comparator keys; the source comparator
reports a before b exactly when keyLt holds of their keys. -/
def keyLt (a b : ℚ × ℚ) : Prop :=
  a.1 < b.1 ∨ (a.1 = b.1 ∧ a.2 < b.2)

instance (a b : ℚ × ℚ) : Decidable (keyLt a b) := by
  unfold keyLt
  infer_instance

theorem keyLt_irrefl (a : ℚ × ℚ) : ¬ keyLt a a := by
  rintro (h | ⟨-, h⟩) <;> exact lt_irrefl _ h

theorem keyLt_trans {a b c : ℚ × ℚ} (h1 : keyLt a b) (h2 : keyLt b c) : keyLt a c := by
  rcases h1 with h1 | ⟨e1, h1⟩ <;> rcases h2 with h2 | ⟨e2, h2⟩
  · exact Or.inl (h1.trans h2)
  · exact Or.inl (e2 ▸ h1)
  · exact Or.inl (e1 ▸ h2)
  · exact Or.inr ⟨e1.trans e2, h1.trans h2⟩

theorem keyLt_connex {a b : ℚ × ℚ} (h : ¬ keyLt a b) : keyLt b a ∨ b = a := by
  rcases lt_trichotomy a.1 b.1 with h1 | h1 | h1
  · exact absurd (Or.inl h1) h
  · rcases lt_trichotomy a.2 b.2 with h2 | h2 | h2
    · exact absurd (Or.inr ⟨h1, h2⟩) h
    · exact Or.inr (Prod.ext h1.symm h2.symm)
    · exact Or.inl (Or.inr ⟨h1.symm, h2⟩)
  · exact Or.inl (Or.inl h1)

/-- First minimum of a list under the key order. The source sorts the
candidate array with the comparator and takes index 0; since the sort of
JavaScript arrays is stable (ECMAScript 2019), that element is the first
list element attaining the minimal key, which is what this recursion
computes: the head survives unless some later element is strictly
smaller. -/
def pickBest {α : Type} (key : α → ℚ × ℚ) : List α → Option α
  | [] => none
  | a :: rest =>
    match pickBest key rest with
    | none => some a
    | some b => if keyLt (key b) (key a) then some b else some a

theorem pickBest_eq_none {α : Type} (key : α → ℚ × ℚ) (l : List α) :
    pickBest key l = none ↔ l = [] := by
  cases l with
  | nil => simp [pickBest]
  | cons a rest =>
    cases hp : pickBest key rest with
    | none => simp [pickBest, hp]
    | some b =>
      simp only [pickBest, hp]
      split <;> simp

theorem pickBest_mem {α : Type} (key : α → ℚ × ℚ) (l : List α) (c : α)
    (hc : pickBest key l = some c) : c ∈ l := by
  induction l with
  | nil => simp [pickBest] at hc
  | cons a rest ih =>
    cases hp : pickBest key rest with
    | none =>
      simp only [pickBest, hp] at hc
      obtain rfl := Option.some.inj hc
      exact List.mem_cons_self a rest
    | some b =>
      simp only [pickBest, hp] at hc
      by_cases hba : keyLt (key b) (key a)
      · rw [if_pos hba] at hc
        obtain rfl := Option.some.inj hc
        exact List.mem_cons_of_mem a (ih hp)
      · rw [if_neg hba] at hc
        obtain rfl := Option.some.inj hc
        exact List.mem_cons_self a rest

theorem pickBest_min {α : Type} (key : α → ℚ × ℚ) (l : List α) :
    ∀ c, pickBest key l = some c → ∀ x ∈ l, ¬ keyLt (key x) (key c) := by
  induction l with
  | nil => intro c hc; simp [pickBest] at hc
  | cons a rest ih =>
    intro c hc x hx
    cases hp : pickBest key rest with
    | none =>
      simp only [pickBest, hp] at hc
      obtain rfl := Option.some.inj hc
      have hrest : rest = [] := (pickBest_eq_none key rest).mp hp
      subst hrest
      rcases List.mem_cons.mp hx with h | h
      · subst h
        exact keyLt_irrefl _
      · simp at h
    | some b =>
      simp only [pickBest, hp] at hc
      by_cases hba : keyLt (key b) (key a)
      · rw [if_pos hba] at hc
        obtain rfl := Option.some.inj hc
        rcases List.mem_cons.mp hx with h | h
        · subst h
          intro hac
          exact keyLt_irrefl _ (keyLt_trans hba hac)
        · exact ih b hp x h
      · rw [if_neg hba] at hc
        obtain rfl := Option.some.inj hc
        rcases List.mem_cons.mp hx with h | h
        · subst h
          exact keyLt_irrefl _
        · intro hxc
          have hxb := ih b hp x h
          rcases keyLt_connex hba with hab | hab
          · exact hxb (keyLt_trans hxc hab)
          · rw [hab] at hxc
            exact hxb hxc

/-- On a list whose idx values strictly increase, the element pickBest
returns carries the least idx among all elements attaining its key. -/
theorem pickBest_first {α : Type} (key : α → ℚ × ℚ) (idx : α → ℕ) :
    ∀ (l : List α), l.Pairwise (fun u v => idx u < idx v) →
      ∀ c, pickBest key l = some c → ∀ x ∈ l, key x = key c → idx c ≤ idx x := by
  intro l
  induction l with
  | nil => intro _ c hc; simp [pickBest] at hc
  | cons a rest ih =>
    intro hl c hc x hx hxk
    have hpa : ∀ y ∈ rest, idx a < idx y := (List.pairwise_cons.mp hl).1
    have htl : rest.Pairwise (fun u v => idx u < idx v) := (List.pairwise_cons.mp hl).2
    cases hp : pickBest key rest with
    | none =>
      simp only [pickBest, hp] at hc
      obtain rfl := Option.some.inj hc
      have hrest : rest = [] := (pickBest_eq_none key rest).mp hp
      subst hrest
      rcases List.mem_cons.mp hx with h | h
      · subst h
        exact le_refl _
      · simp at h
    | some b =>
      simp only [pickBest, hp] at hc
      by_cases hba : keyLt (key b) (key a)
      · rw [if_pos hba] at hc
        obtain rfl := Option.some.inj hc
        rcases List.mem_cons.mp hx with h | h
        · subst h
          rw [hxk] at hba
          exact absurd hba (keyLt_irrefl _)
        · exact ih htl b hp x h hxk
      · rw [if_neg hba] at hc
        obtain rfl := Option.some.inj hc
        rcases List.mem_cons.mp hx with h | h
        · subst h
          exact le_refl _
        · exact (hpa x h).le

/-- The candidate collection loop of attemptHit, carrying the array index
of each eligible note (the source keeps object references; over a list
the index plays that role). -/
def collectCandidates (cx cy t : ℚ) : ℕ → List RuntimeNote → List (ℕ × RuntimeNote)
  | _, [] => []
  | i, n :: rest =>
    if isCandidate cx cy t n then (i, n) :: collectCandidates cx cy t (i + 1) rest
    else collectCandidates cx cy t (i + 1) rest

theorem collectCandidates_sound (cx cy t : ℚ) :
    ∀ (l : List RuntimeNote) (i : ℕ) (x : ℕ × RuntimeNote),
      x ∈ collectCandidates cx cy t i l →
      ∃ j, x.1 = i + j ∧ l.get? j = some x.2 ∧ isCandidate cx cy t x.2 := by
  intro l
  induction l with
  | nil => intro i x hx; simp [collectCandidates] at hx
  | cons n rest ih =>
    intro i x hx
    by_cases h : isCandidate cx cy t n
    · simp only [collectCandidates, if_pos h] at hx
      rcases List.mem_cons.mp hx with h1 | h1
      · subst h1
        exact ⟨0, by simp, by simp, h⟩
      · obtain ⟨j, hj1, hj2, hj3⟩ := ih (i + 1) x h1
        exact ⟨j + 1, by omega, by simpa using hj2, hj3⟩
    · simp only [collectCandidates, if_neg h] at hx
      obtain ⟨j, hj1, hj2, hj3⟩ := ih (i + 1) x hx
      exact ⟨j + 1, by omega, by simpa using hj2, hj3⟩

theorem collectCandidates_complete (cx cy t : ℚ) :
    ∀ (l : List RuntimeNote) (i j : ℕ) (m : RuntimeNote),
      l.get? j = some m → isCandidate cx cy t m →
      (i + j, m) ∈ collectCandidates cx cy t i l := by
  intro l
  induction l with
  | nil => intro i j m hm; simp at hm
  | cons n rest ih =>
    intro i j m hm hcand
    cases j with
    | zero =>
      simp only [List.get?_cons_zero] at hm
      obtain rfl := Option.some.inj hm
      simp only [collectCandidates, if_pos hcand]
      simp
    | succ j =>
      have hmem := ih (i + 1) j m (by simpa using hm) hcand
      have harr : i + (j + 1) = i + 1 + j := by omega
      rw [harr]
      by_cases h : isCandidate cx cy t n
      · simp only [collectCandidates, if_pos h]
        exact List.mem_cons_of_mem _ hmem
      · simp only [collectCandidates, if_neg h]
        exact hmem

theorem collectCandidates_lb (cx cy t : ℚ) (l : List RuntimeNote) (i : ℕ)
    (x : ℕ × RuntimeNote) (hx : x ∈ collectCandidates cx cy t i l) : i ≤ x.1 := by
  obtain ⟨j, hj1, -, -⟩ := collectCandidates_sound cx cy t l i x hx
  omega

theorem collectCandidates_pairwise (cx cy t : ℚ) :
    ∀ (l : List RuntimeNote) (i : ℕ),
      (collectCandidates cx cy t i l).Pairwise (fun u v => u.1 < v.1) := by
  intro l
  induction l with
  | nil => intro i; simp [collectCandidates]
  | cons n rest ih =>
    intro i
    by_cases h : isCandidate cx cy t n
    · simp only [collectCandidates, if_pos h]
      refine List.pairwise_cons.mpr ⟨?_, ih (i + 1)⟩
      intro x hx
      have hlb := collectCandidates_lb cx cy t rest (i + 1) x hx
      show i < x.1
      omega
    · simpa only [collectCandidates, if_neg h] using ih (i + 1)

theorem collectCandidates_nil_of_none (cx cy t : ℚ) :
    ∀ (l : List RuntimeNote), (∀ n ∈ l, ¬ isCandidate cx cy t n) →
      ∀ i, collectCandidates cx cy t i l = [] := by
  intro l
  induction l with
  | nil => intro _ i; rfl
  | cons n rest ih =>
    intro h i
    simp only [collectCandidates, if_neg (h n (List.mem_cons_self n rest))]
    exact ih (fun m hm => h m (List.mem_cons_of_mem n hm)) (i + 1)

/-- Hit resolution (attemptHit in the source): collect the eligible
candidates in array order, pick the head of the stably sorted candidate
array (the first minimum of the comparator key), and apply the judgment
to the picked note and the stats. Returns the new note list, the new
stats and the picked index; everything unchanged and none picked when no
candidate exists. -/
def candKey (cx cy t : ℚ) (c : ℕ × RuntimeNote) : ℚ × ℚ := hitKey cx cy t c.2

def attemptHit (cx cy t : ℚ) (notes : List RuntimeNote) (s : Stats) :
    List RuntimeNote × Stats × Option ℕ :=
  match pickBest (candKey cx cy t) (collectCandidates cx cy t 0 notes) with
  | none => (notes, s, none)
  | some c =>
    let delta := t - c.2.tMs
    let j := judge delta
    let r := applyJudgment c.2 t delta j s
    (notes.set c.1 r.1, r.2, some c.1)

/-- C1: when attemptHit resolves an activation it picks an eligible note
(pending, absolute timing error at most 160 ms, squared cursor distance
at most the squared radius) such that no other eligible note has a
strictly smaller lexicographic (absolute timing error, squared distance)
key; when the eligible set is empty it picks none. -/
theorem attemptHit_selects_min_C1 (cx cy t : ℚ) (notes : List RuntimeNote) (s : Stats) :
    ((∀ n ∈ notes, ¬ isCandidate cx cy t n) →
      (attemptHit cx cy t notes s).2.2 = none) ∧
    (∀ i, (attemptHit cx cy t notes s).2.2 = some i →
      ∃ n, notes.get? i = some n ∧ isCandidate cx cy t n ∧
        ∀ m ∈ notes, isCandidate cx cy t m →
          ¬ keyLt (hitKey cx cy t m) (hitKey cx cy t n)) := by
  constructor
  · intro h
    have hnil := collectCandidates_nil_of_none cx cy t notes h 0
    simp [attemptHit, hnil, pickBest]
  · intro i hi
    cases hp : pickBest (candKey cx cy t) (collectCandidates cx cy t 0 notes) with
    | none => simp [attemptHit, hp] at hi
    | some c =>
      simp only [attemptHit, hp, Option.some.injEq] at hi
      obtain ⟨j, hj1, hj2, hj3⟩ :=
        collectCandidates_sound cx cy t notes 0 c (pickBest_mem _ _ _ hp)
      refine ⟨c.2, ?_, hj3, ?_⟩
      · rw [← hi, show c.1 = j from by omega]
        exact hj2
      · intro m hm hcand
        obtain ⟨jm, hjm⟩ := List.mem_iff_get?.mp hm
        have hmemc : (0 + jm, m) ∈ collectCandidates cx cy t 0 notes :=
          collectCandidates_complete cx cy t notes 0 jm m hjm hcand
        have hmin := pickBest_min (candKey cx cy t) _ c hp (0 + jm, m) hmemc
        simpa [candKey] using hmin

/-- C1 witness: with a single note at point (100, 100) scheduled at 1000
ms, an activation at its exact position and time picks it, and an
activation far away picks nothing. -/
theorem attemptHit_selects_min_C1_witness :
    (attemptHit 500 500 1000 [demoNote] initStats).2.2 = none ∧
    (attemptHit 100 100 1000 [demoNote] initStats).2.2 = some 0 := by
  constructor
  · refine (attemptHit_selects_min_C1 500 500 1000 [demoNote] initStats).1 ?_
    intro n hn
    simp only [List.mem_singleton] at hn
    subst hn
    norm_num [isCandidate, demoNote, dist2, HIT_WINDOW_MS]
  · norm_num [attemptHit, collectCandidates, pickBest, isCandidate, hitKey,
      demoNote, dist2, HIT_WINDOW_MS]

/-- C7: an activation whose eligible candidate set is empty returns none
and performs no state mutation at all: the note list and every stats
field, the combo included, are returned unchanged. -/
theorem attemptHit_empty_noop_C7 (cx cy t : ℚ) (notes : List RuntimeNote) (s : Stats)
    (h : ∀ n ∈ notes, ¬ isCandidate cx cy t n) :
    attemptHit cx cy t notes s = (notes, s, none) := by
  have hnil := collectCandidates_nil_of_none cx cy t notes h 0
  simp [attemptHit, hnil, pickBest]

/-- C7 witness: an activation long after the only note leaves notes and
stats untouched. -/
theorem attemptHit_empty_noop_C7_witness :
    attemptHit 100 100 5000 [demoNote] initStats = ([demoNote], initStats, none) := by
  apply attemptHit_empty_noop_C7
  intro n hn
  simp only [List.mem_singleton] at hn
  subst hn
  norm_num [isCandidate, demoNote, dist2, HIT_WINDOW_MS]

/-- C10: the source comparator returns zero on a full tie of both key
components and the sort of JavaScript arrays is stable, so the resolver
picks the candidate occurring earliest in the note array; the embedding
is a pure function of (point, time, collection), so equal inputs resolve
to the identical note. -/
theorem attemptHit_stable_tie_C10 (cx cy t : ℚ) (notes : List RuntimeNote) (s : Stats) :
    ∀ i, (attemptHit cx cy t notes s).2.2 = some i →
      ∃ n, notes.get? i = some n ∧
        ∀ j m, notes.get? j = some m → isCandidate cx cy t m →
          hitKey cx cy t m = hitKey cx cy t n → i ≤ j := by
  intro i hi
  cases hp : pickBest (candKey cx cy t) (collectCandidates cx cy t 0 notes) with
  | none => simp [attemptHit, hp] at hi
  | some c =>
    simp only [attemptHit, hp, Option.some.injEq] at hi
    obtain ⟨j0, hj1, hj2, hj3⟩ :=
      collectCandidates_sound cx cy t notes 0 c (pickBest_mem _ _ _ hp)
    refine ⟨c.2, ?_, ?_⟩
    · rw [← hi, show c.1 = j0 from by omega]
      exact hj2
    · intro j m hjm hcand hkey
      have hmemc : (0 + j, m) ∈ collectCandidates cx cy t 0 notes :=
        collectCandidates_complete cx cy t notes 0 j m hjm hcand
      have hfirst := pickBest_first (candKey cx cy t) Prod.fst
        (collectCandidates cx cy t 0 notes) (collectCandidates_pairwise cx cy t notes 0)
        c hp (0 + j, m) hmemc (by simpa [candKey] using hkey)
      have hle : c.1 ≤ 0 + j := hfirst
      omega

/-- C10 witness: two notes fully tied in time and position; the resolver
picks index 0, the earlier of the two in array order. -/
theorem attemptHit_stable_tie_C10_witness :
    (attemptHit 100 100 1000 [demoNote, demoNote] initStats).2.2 = some 0 ∧
    (0 : ℕ) ≤ 1 := by
  have hev : (attemptHit 100 100 1000 [demoNote, demoNote] initStats).2.2 = some 0 := by
    norm_num [attemptHit, collectCandidates, pickBest, isCandidate, hitKey, candKey,
      keyLt, demoNote, dist2, HIT_WINDOW_MS]
  obtain ⟨n, hn, hall⟩ :=
    attemptHit_stable_tie_C10 100 100 1000 [demoNote, demoNote] initStats 0 hev
  have hn0 : [demoNote, demoNote].get? 0 = some demoNote := rfl
  rw [hn0] at hn
  obtain rfl := (Option.some.inj hn).symm
  have hcand : isCandidate 100 100 1000 demoNote := by
    norm_num [isCandidate, demoNote, dist2, HIT_WINDOW_MS]
  exact ⟨hev, hall 1 demoNote rfl hcand rfl⟩

-- --------------------- Session state, clock, main loop ---------------------

/-- The session and clock fields of the ambient STATE object, together
with the cursor, the stats and the runtime note array. -/
structure GameState where
  running : Bool
  paused : Bool
  ended : Bool
  startAtPerfMs : ℚ
  pauseAtPerfMs : ℚ
  pausedTotalMs : ℚ
  cursorX : ℚ
  cursorY : ℚ
  stats : Stats
  noteStates : List RuntimeNote
deriving DecidableEq

/-- Pause-aware elapsed song time (getSongTimeMs in the source); the
monotonic wall clock reading performance.now() is passed in as now. -/
def getSongTimeMs (st : GameState) (now : ℚ) : ℚ :=
  if st.running = false then 0
  else if st.paused = true then st.pauseAtPerfMs - st.startAtPerfMs - st.pausedTotalMs
  else now - st.startAtPerfMs - st.pausedTotalMs

/-- C6: elapsed time is 0 while not running; while running and unpaused
it is now - startTime - pausedAccumulated; while running and paused it is
the frozen value pauseStart - startTime - pausedAccumulated, identical
for every later wall clock reading. -/
theorem getSongTimeMs_clock_C6 (st : GameState) (now now2 : ℚ) :
    (st.running = false → getSongTimeMs st now = 0) ∧
    (st.running = true → st.paused = false →
      getSongTimeMs st now = now - st.startAtPerfMs - st.pausedTotalMs) ∧
    (st.running = true → st.paused = true →
      getSongTimeMs st now = st.pauseAtPerfMs - st.startAtPerfMs - st.pausedTotalMs ∧
      getSongTimeMs st now = getSongTimeMs st now2) :=
  ⟨fun h => by simp [getSongTimeMs, h],
    fun h1 h2 => by simp [getSongTimeMs, h1, h2],
    fun h1 h2 => ⟨by simp [getSongTimeMs, h1, h2], by simp [getSongTimeMs, h1, h2]⟩⟩

/-- A session paused at wall clock 400 after starting at 100 with 50 ms
already spent paused. -/
def pausedState : GameState :=
  { running := true, paused := true, ended := false, startAtPerfMs := 100,
    pauseAtPerfMs := 400, pausedTotalMs := 50, cursorX := 0, cursorY := 0,
    stats := initStats, noteStates := [demoNote] }

/-- C6 witness: the paused session reads 250 regardless of how far the
wall clock has advanced. -/
theorem getSongTimeMs_clock_C6_witness :
    getSongTimeMs pausedState 1000 = 250 ∧ getSongTimeMs pausedState 99999 = 250 := by
  have h := (getSongTimeMs_clock_C6 pausedState 1000 99999).2.2 rfl rfl
  constructor
  · rw [h.1]; norm_num [pausedState]
  · rw [← h.2, h.1]; norm_num [pausedState]

/-- Number of notes still pending (countNotesLeft in the source). -/
def countNotesLeft (notes : List RuntimeNote) : ℕ :=
  (notes.filter (fun n => decide (n.state = NoteState.pending))).length

/-- One simulation step (tick in the source), restricted to its state
effects: when running, unpaused and not ended, run the auto-miss sweep,
then set ended when the elapsed time is past the last note plus the hit
window, the fade time and the 200 ms grace, and no pending note remains.
Rendering and HUD updates have no state effect and are omitted. The
source reads the last element of the note array after the in-place
sweep; on an empty array the source would fault before the end check,
leaving ended unset, which the none branch mirrors (the bundled beatmap
is never empty). -/
def tick (st : GameState) (now : ℚ) : GameState :=
  if st.running = true ∧ st.paused = false ∧ st.ended = false then
    let t := getSongTimeMs st now
    let r := processAutoMisses t st.noteStates st.stats
    let st2 := { st with noteStates := r.1, stats := r.2 }
    match r.1.getLast? with
    | none => st2
    | some last =>
      if t > last.tMs + HIT_WINDOW_MS + AFTER_MS + endGraceMs ∧ countNotesLeft r.1 = 0
      then { st2 with ended := true }
      else st2
  else st

/-- An activation event (the mousedown, touchstart and hit-key handlers
of the source): guarded by running, not paused and not ended; moves the
cursor to the event point and resolves attemptHit there. The key handler
is this function applied at the current cursor position. -/
def handleActivation (st : GameState) (x y now : ℚ) : GameState :=
  if st.running = true ∧ st.paused = false ∧ st.ended = false then
    let t := getSongTimeMs st now
    let r := attemptHit x y t st.noteStates st.stats
    { st with cursorX := x, cursorY := y, noteStates := r.1, stats := r.2.1 }
  else st

/-- C8: after a tick the run is marked ended exactly when it already was,
or the step ran (running, unpaused, not yet ended) with the elapsed time
past lastNote.tMs + 160 + 260 + 200 and no note pending after the sweep
of this step; and once ended is set, a tick changes nothing and
activation events are not processed: pointer, touch and key activations
leave the whole state, notes and stats included, untouched. -/
theorem tick_end_condition_C8 (st : GameState) (now x y : ℚ) :
    ((tick st now).ended = true ↔
      (st.ended = true ∨
        (st.running = true ∧ st.paused = false ∧
          ∃ last,
            (processAutoMisses (getSongTimeMs st now) st.noteStates st.stats).1.getLast? =
              some last ∧
            getSongTimeMs st now > last.tMs + HIT_WINDOW_MS + AFTER_MS + endGraceMs ∧
            countNotesLeft
              (processAutoMisses (getSongTimeMs st now) st.noteStates st.stats).1 = 0))) ∧
    (st.ended = true → tick st now = st ∧ handleActivation st x y now = st) := by
  constructor
  · by_cases hg : st.running = true ∧ st.paused = false ∧ st.ended = false
    · obtain ⟨h1, h2, h3⟩ := hg
      simp only [tick, if_pos (show st.running = true ∧ st.paused = false ∧ st.ended = false
        from ⟨h1, h2, h3⟩)]
      cases hlast :
          (processAutoMisses (getSongTimeMs st now) st.noteStates st.stats).1.getLast? with
      | none => simp [hlast, h1, h2, h3]
      | some last =>
        by_cases hcond :
            getSongTimeMs st now > last.tMs + HIT_WINDOW_MS + AFTER_MS + endGraceMs ∧
              countNotesLeft
                (processAutoMisses (getSongTimeMs st now) st.noteStates st.stats).1 = 0
        · simp [hlast, if_pos hcond, h1, h2, h3, hcond.1, hcond.2]
        · simp only [hlast, if_neg hcond]
          simp [h1, h2, h3, hlast]
          intro hgt
          exact fun hcnt => hcond ⟨hgt, hcnt⟩
    · have hng : ¬ (st.running = true ∧ st.paused = false ∧ st.ended = false) := hg
      simp only [tick, if_neg hng]
      constructor
      · intro h
        exact Or.inl h
      · rintro (h | ⟨h1, h2, -⟩)
        · exact h
        · by_contra hne
          have h3 : st.ended = false := by
            cases hb : st.ended
            · rfl
            · exact absurd hb hne
          exact hng ⟨h1, h2, h3⟩
  · intro h
    have hng : ¬ (st.running = true ∧ st.paused = false ∧ st.ended = false) := by
      rintro ⟨-, -, h3⟩
      rw [h] at h3
      simp at h3
    constructor
    · simp [tick, if_neg hng]
    · simp [handleActivation, if_neg hng]

/-- A session whose run has ended, with some judged notes on record. -/
def endedState : GameState :=
  { running := true, paused := false, ended := true, startAtPerfMs := 0,
    pauseAtPerfMs := 0, pausedTotalMs := 0, cursorX := 100, cursorY := 100,
    stats := demoStats, noteStates := [demoNote] }

/-- C8 witness: on an ended session neither a tick nor an activation
changes anything. -/
theorem tick_end_condition_C8_witness :
    tick endedState 5000 = endedState ∧
      handleActivation endedState 100 100 5000 = endedState :=
  (tick_end_condition_C8 endedState 5000 100 100).2 rfl

-- --------------------- Beatmap load and resize ---------------------

/-- A scheduled beatmap note: time plus normalized position and an
optional size factor (rN in the source). -/
structure ScheduledNote where
  tMs : ℚ
  xN : ℚ
  yN : ℚ
  rN : Option ℚ
deriving DecidableEq

/-- Fresh runtime note built from a scheduled note (makeRuntimeNote in
the source): computed pixel position and radius, lifecycle fields at
their initial values. The source tests noteDef.rN for truthiness, so a
missing factor and the falsy factor 0 both leave the base radius. -/
def makeRuntimeNote (noteDef : ScheduledNote) (px py radiusPx : ℚ) : RuntimeNote :=
  { tMs := noteDef.tMs, x := px, y := py,
    r := radiusPx * (match noteDef.rN with
      | some v => if v = 0 then 1 else clamp v (6 / 10) (16 / 10)
      | none => 1),
    state := NoteState.pending, judgedAtMs := none, deltaMs := none, judgment := none }

/-- Rebuild of the runtime note array from the beatmap for a viewport of
css size w by h (rebuildRuntimeNotes in the source); called at beatmap
load, at game reset, and from resizeCanvas on every viewport resize,
where it replaces STATE.noteStates wholesale. -/
def rebuildRuntimeNotes (cssW cssH : ℚ) (beatmapNotes : List ScheduledNote) :
    List RuntimeNote :=
  let safePad := max 26 (min cssW cssH * (8 / 100))
  let left := safePad
  let right := cssW - safePad
  let top := safePad
  let bottom := cssH - safePad
  let baseR := max 18 (min BASE_RADIUS_PX (min cssW cssH * (55 / 1000)))
  beatmapNotes.map fun n =>
    makeRuntimeNote n (lerp left right (clamp n.xN 0 1)) (lerp top bottom (clamp n.yN 0 1))
      baseR

/-- A scheduled note at the middle of the playfield. -/
def demoSched : ScheduledNote := { tMs := 1000, xN := 1 / 2, yN := 1 / 2, rN := none }

/-- A runtime note already hit mid-run, as applyJudgment records it. -/
def hitNote : RuntimeNote :=
  { tMs := 1000, x := 400, y := 300, r := 33, state := NoteState.hit,
    judgedAtMs := some 1010, deltaMs := some 10, judgment := some Judgment.P }

/-- C2 counterexample: the claim that a resize never resets the state and
judgment fields of the runtime notes is false on the code: resizeCanvas
calls rebuildRuntimeNotes, which rebuilds every runtime note from the
beatmap through makeRuntimeNote, so the note at index 0 comes back
pending with empty judgment fields even though the note it replaces was
already hit. -/
theorem resize_resets_state_C2_counterexample :
    ¬ (∀ (w h : ℚ) (bm : List ScheduledNote) (old : List RuntimeNote)
        (i : ℕ) (nn oldNote : RuntimeNote),
        (rebuildRuntimeNotes w h bm).get? i = some nn → old.get? i = some oldNote →
        nn.state = oldNote.state ∧ nn.judgedAtMs = oldNote.judgedAtMs ∧
          nn.deltaMs = oldNote.deltaMs ∧ nn.judgment = oldNote.judgment) := by
  intro hcl
  rcases hl : rebuildRuntimeNotes 800 600 [demoSched] with _ | ⟨nn, rest⟩
  · simp [rebuildRuntimeNotes] at hl
  · have hget : (rebuildRuntimeNotes 800 600 [demoSched]).get? 0 = some nn := by
      rw [hl]
      rfl
    have h := hcl 800 600 [demoSched] [hitNote] 0 nn hitNote hget rfl
    have hmem : nn ∈ rebuildRuntimeNotes 800 600 [demoSched] := by
      rw [hl]
      exact List.mem_cons_self _ _
    have hpend : nn.state = NoteState.pending := by
      simp only [rebuildRuntimeNotes, List.mem_map] at hmem
      obtain ⟨n, -, rfl⟩ := hmem
      rfl
    rw [hpend] at h
    exact absurd h.1 (by decide)

/-- C2 amended: a viewport resize rebuilds the whole runtime note array
from the beatmap, recomputing every pixel position and radius from the
new viewport and keeping the schedule times, but it also resets every
state, judgedAt, timingOffset and judgment field to its initial value:
judgment state does not survive a resize during a run; it is reset on
resize just as on an explicit game reset. -/
theorem rebuild_on_resize_C2 (w h : ℚ) (bm : List ScheduledNote) :
    (rebuildRuntimeNotes w h bm).length = bm.length ∧
    (rebuildRuntimeNotes w h bm).map (fun nn => nn.tMs) = bm.map (fun n => n.tMs) ∧
    ∀ nn ∈ rebuildRuntimeNotes w h bm,
      nn.state = NoteState.pending ∧ nn.judgedAtMs = none ∧
        nn.deltaMs = none ∧ nn.judgment = none := by
  refine ⟨by simp [rebuildRuntimeNotes], ?_, ?_⟩
  · simp only [rebuildRuntimeNotes, List.map_map]
    rfl
  · intro nn hnn
    simp only [rebuildRuntimeNotes, List.mem_map] at hnn
    obtain ⟨n, -, rfl⟩ := hnn
    exact ⟨rfl, rfl, rfl, rfl⟩

/-- C2 amended witness: rebuilding one mid-playfield note for an 800 by
600 viewport yields one note, schedule time kept, state pending. -/
theorem rebuild_on_resize_C2_witness :
    (rebuildRuntimeNotes 800 600 [demoSched]).length = 1 ∧
    (rebuildRuntimeNotes 800 600 [demoSched]).map (fun nn => nn.tMs) = [1000] ∧
    (rebuildRuntimeNotes 800 600 [demoSched]).map (fun nn => nn.state) =
      [NoteState.pending] := by
  have h := rebuild_on_resize_C2 800 600 [demoSched]
  refine ⟨by rw [h.1]; rfl, by rw [h.2.1]; rfl, ?_⟩
  rcases hl : rebuildRuntimeNotes 800 600 [demoSched] with _ | ⟨nn, rest⟩
  · have := h.1
    rw [hl] at this
    simp at this
  · have hnn := (h.2.2 nn (by rw [hl]; exact List.mem_cons_self _ _)).1
    have hlen := h.1
    rw [hl] at hlen
    have hlen2 : rest.length = 0 := by simpa using hlen
    have hrest : rest = [] := List.eq_nil_of_length_eq_zero hlen2
    rw [hrest]
    simp [hnn]
